import Mathlib

/-!
Shallow embedding of the storage-engine core of `be/src/olap/storage_engine.cpp`
(Doris backend).  C++ functions become Lean functions over explicit state;
OLAP status codes are modelled as integers (`OLAP_SUCCESS = 0`, error codes
negative, matching the enum's shape); the per-volume metadata store, the tablet
directory, the transaction reconciler and the GC registries become lists.
-/

/-- OLAP status codes, embedded as integers (`OLAP_SUCCESS = 0`). -/
def OLAP_SUCCESS : Int := 0

def OLAP_ERR_INVALID_CLUSTER_INFO : Int := -114

def OLAP_ERR_OS_ERROR : Int := -101

def OLAP_ERR_IO_ERROR : Int := -102

def OLAP_ERR_META_ERROR : Int := -103

/-! ## Cluster-id reconciliation (`check_all_root_path_cluster_id`, `set_cluster_id`) -/

/-- The loop body of `StorageEngine::check_all_root_path_cluster_id`: walk the
stored cluster ids of `_store_map`; `-1` marks an unset volume and clears the
all-exist flag; the first non-`-1` id is adopted; a second, different non-`-1`
id is `OLAP_ERR_INVALID_CLUSTER_INFO` (returned here as `none`).  The `Bool`
component is the value of `_is_all_cluster_id_exist` when the loop exits. -/
def clusterIdScan : List Int → Int → Bool → Option Int × Bool
  | [], cid, allExist => (some cid, allExist)
  | t :: rest, cid, allExist =>
    if t = -1 then clusterIdScan rest cid false
    else if t = cid then clusterIdScan rest cid allExist
    else if cid = -1 then clusterIdScan rest t allExist
    else (none, allExist)

/-- `StorageEngine::_judge_and_update_effective_cluster_id`: reconcile the id
found on disk with `_effective_cluster_id`; `none` models
`OLAP_ERR_INVALID_CLUSTER_INFO`. -/
def judgeAndUpdateEffectiveClusterId (cluster_id eff : Int) : Option Int :=
  if cluster_id = -1 ∧ eff = -1 then some eff
  else if cluster_id ≠ -1 ∧ eff = -1 then some cluster_id
  else if cluster_id = -1 ∧ eff ≠ -1 then some eff
  else if cluster_id = eff then some eff
  else none

/-- Result of the cluster-id check: returned status, the stored cluster id of
every volume afterwards, the effective cluster id, and
`_is_all_cluster_id_exist`. -/
structure ClusterCheckResult where
  status : Int
  stores : List Int
  effective : Int
  allExist : Bool
deriving DecidableEq, Repr

/-- `StorageEngine::check_all_root_path_cluster_id` over the list of stored
cluster ids, with initial `_effective_cluster_id = eff0`: scan the volumes,
judge the effective id, and — on success with some volume still unset
(`set_cluster_id`) — write the effective id back to every volume and set the
all-exist flag. -/
def check_all_root_path_cluster_id (stores : List Int) (eff0 : Int) :
    ClusterCheckResult :=
  match clusterIdScan stores (-1) true with
  | (none, allE) => ⟨OLAP_ERR_INVALID_CLUSTER_INFO, stores, eff0, allE⟩
  | (some cid, allE) =>
    match judgeAndUpdateEffectiveClusterId cid eff0 with
    | none => ⟨OLAP_ERR_INVALID_CLUSTER_INFO, stores, eff0, allE⟩
    | some eff =>
      if eff ≠ -1 ∧ allE = false then
        ⟨OLAP_SUCCESS, stores.map (fun _ => eff), eff, true⟩
      else
        ⟨OLAP_SUCCESS, stores, eff, allE⟩

/-! ## Generic two-phase task execution (`StorageEngine::execute_task`) -/

/-- `TabletInfo`: identity of a tablet, ordered by `(tablet_id, schema_hash)`. -/
structure TabletInfo where
  tablet_id : Int
  schema_hash : Int
deriving DecidableEq, Repr

/-- The strict-weak order `std::sort` uses on `TabletInfo`
(lexicographic on `(tablet_id, schema_hash)`). -/
def tabletInfoLe (a b : TabletInfo) : Bool :=
  a.tablet_id < b.tablet_id ||
    (a.tablet_id == b.tablet_id && a.schema_hash ≤ b.schema_hash)

def insertSorted (a : TabletInfo) : List TabletInfo → List TabletInfo
  | [] => [a]
  | b :: l => if tabletInfoLe a b then a :: b :: l else b :: insertSorted a l

/-- `std::sort` over the related-tablet vector, embedded as insertion sort. -/
def sortTabletInfos : List TabletInfo → List TabletInfo
  | [] => []
  | a :: l => insertSorted a (sortTabletInfos l)

/-- An `EngineTask`: the related-tablet sets reported before and after
`execute()` (they may differ), and the statuses its three callbacks return. -/
structure EngineTask where
  relatedBefore : List TabletInfo
  relatedAfter : List TabletInfo
  prepareStatus : Int
  executeStatus : Int
  finishStatus : Int
deriving DecidableEq, Repr

/-- Outcome of `execute_task`: the returned status, whether `execute()` and
`finish()` were invoked, and the header write-locks still held on return. -/
structure TaskRunResult where
  status : Int
  executeInvoked : Bool
  finishInvoked : Bool
  heldLocks : List TabletInfo
deriving DecidableEq, Repr

/-- One locking phase of `execute_task`: sort the related-tablet infos, resolve
each against the tablet directory (absent tablets are skipped with a warning),
and take each resolved tablet's header write-lock.  Returns the resolved
tablets, which are exactly the locks acquired. -/
def resolveAndLock (dir : List TabletInfo) (infos : List TabletInfo) :
    List TabletInfo :=
  (sortTabletInfos infos).filter (fun i => dir.contains i)

/-- Release the header lock of every tablet in `acquired`, in order. -/
def releaseLocks (held acquired : List TabletInfo) : List TabletInfo :=
  acquired.foldl (fun h t => h.erase t) held

/-- `StorageEngine::execute_task`: lock the (sorted, resolved) related tablets,
run `prepare()`, release all locks, and return on failure; otherwise run
`execute()` with no locks held, then re-query, re-lock, run `finish()`, and
release.  `dir` is the tablet directory (`TabletManager::get_tablet`). -/
def execute_task (dir : List TabletInfo) (task : EngineTask) : TaskRunResult :=
  let related1 := resolveAndLock dir task.relatedBefore
  let held1 := ([] : List TabletInfo) ++ related1
  let held2 := releaseLocks held1 related1
  if task.prepareStatus ≠ OLAP_SUCCESS then
    ⟨task.prepareStatus, false, false, held2⟩
  else if task.executeStatus ≠ OLAP_SUCCESS then
    ⟨task.executeStatus, true, false, held2⟩
  else
    let related2 := resolveAndLock dir task.relatedAfter
    let held3 := held2 ++ related2
    let held4 := releaseLocks held3 related2
    ⟨task.finishStatus, true, true, held4⟩

/-! ## Rowset-meta reconciliation during volume load (`_load_data_dir`) -/

/-- `RowsetStatePB`: the persisted state of a rowset meta. -/
inductive RowsetState
  | PREPARED
  | COMMITTED
  | VISIBLE
deriving DecidableEq, Repr

/-- The fields of a `RowsetMeta` the reconciliation pass reads. -/
structure RowsetMeta where
  rowset_id : Nat
  tablet_id : Int
  tablet_schema_hash : Int
  partition_id : Int
  txn_id : Int
  rowset_state : RowsetState
deriving DecidableEq, Repr

/-- A tablet registered in the tablet directory: identity plus the rowset ids
attached to it (`add_inc_rowset`). -/
structure Tablet where
  tablet_id : Int
  schema_hash : Int
  rowsets : List Nat
deriving DecidableEq, Repr

/-- One registration in the transaction reconciler (`TxnManager`): the map key
is `(partition_id, txn_id)`, the inner key is the tablet identity, and the
value is the rowset. -/
structure TxnEntry where
  partition_id : Int
  txn_id : Int
  tablet_id : Int
  schema_hash : Int
  rowset_id : Nat
deriving DecidableEq, Repr

/-- The engine state the volume-load reconciliation pass touches: the tablet
directory, the transaction reconciler, and the persisted rowset-meta store
(which the pass reads but never deletes from). -/
structure EngineState where
  tablets : List Tablet
  txns : List TxnEntry
  rowsetMetaStore : List RowsetMeta
deriving DecidableEq, Repr

/-- `TabletManager::get_tablet`: resolve a tablet identity in the directory. -/
def getTablet (ts : List Tablet) (tid sh : Int) : Option Tablet :=
  ts.find? (fun t => t.tablet_id == tid && t.schema_hash == sh)

/-- `TxnManager::commit_txn` in recovery mode: register the rowset under
`((partition_id, txn_id), tablet)`; if that pair is already registered the
call returns `OLAP_ERR_PUSH_TRANSACTION_ALREADY_EXIST`, which the loader
tolerates, and the existing entry is kept. -/
def commitTxn (txns : List TxnEntry) (m : RowsetMeta) : List TxnEntry :=
  if txns.any (fun e => e.partition_id == m.partition_id &&
      e.txn_id == m.txn_id && e.tablet_id == m.tablet_id &&
      e.schema_hash == m.tablet_schema_hash) then
    txns
  else
    ⟨m.partition_id, m.txn_id, m.tablet_id, m.tablet_schema_hash,
      m.rowset_id⟩ :: txns

/-- `Tablet::add_inc_rowset`: attach a rowset id to the matching tablet's
rowset set. -/
def addIncRowset (ts : List Tablet) (tid sh : Int) (rid : Nat) : List Tablet :=
  ts.map (fun t =>
    if t.tablet_id == tid && t.schema_hash == sh then
      { t with rowsets := rid :: t.rowsets }
    else t)

/-- The body of the reconciliation loop at the end of
`StorageEngine::_load_data_dir`: resolve the owning tablet (absent tablet ⇒
skip, the rowset meta stays in the store); `COMMITTED` ⇒ `commit_txn`;
`VISIBLE` ⇒ `add_inc_rowset`; any other state is logged as invalid and
skipped. -/
def reconcileRowset (st : EngineState) (m : RowsetMeta) : EngineState :=
  match getTablet st.tablets m.tablet_id m.tablet_schema_hash with
  | none => st
  | some _ =>
    match m.rowset_state with
    | RowsetState.COMMITTED => { st with txns := commitTxn st.txns m }
    | RowsetState.VISIBLE =>
      { st with tablets := addIncRowset st.tablets m.tablet_id m.tablet_schema_hash m.rowset_id }
    | RowsetState.PREPARED => st

/-- The full reconciliation pass over the collected `dir_rowset_metas`. -/
def reconcileRowsets (st : EngineState) (metas : List RowsetMeta) :
    EngineState :=
  metas.foldl reconcileRowset st

/-- `true` when the tablet identity resolves in the directory. -/
def tabletPresent (ts : List Tablet) (tid sh : Int) : Bool :=
  (getTablet ts tid sh).isSome

/-- The rowset id is attached to a tablet with the given identity. -/
def rowsetInTablets (ts : List Tablet) (tid sh : Int) (rid : Nat) : Prop :=
  ∃ t ∈ ts, t.tablet_id = tid ∧ t.schema_hash = sh ∧ rid ∈ t.rowsets

/-! ## Full per-volume load (`_load_data_dir` conversion + load pipeline) -/

/-- A persisted tablet-meta record (`HEADER_PREFIX` entry): identity, the
rowset ids its tablet carries, and whether `load_tablet_from_meta` succeeds
on it (a failed load is skipped, not fatal). -/
structure TabletMetaRec where
  tablet_id : Int
  schema_hash : Int
  rowsets : List Nat
  loadOk : Bool
deriving DecidableEq, Repr

/-- A persisted rowset-meta blob: whether it parses, and the parsed meta. -/
structure StoredRowsetMeta where
  parses : Bool
  meta : RowsetMeta
deriving DecidableEq, Repr

/-- A legacy olap-header blob (`OLD_HEADER_PREFIX`): whether it parses and
converts, and the tablet meta plus pending rowset metas conversion writes. -/
structure LegacyHeader where
  parses : Bool
  convertOk : Bool
  tabletMeta : TabletMetaRec
  pendingRowsets : List StoredRowsetMeta
deriving DecidableEq, Repr

/-- The per-volume metadata store: conversion-finished flag, legacy headers,
current tablet metas, and rowset metas. -/
structure DataDirMeta where
  convertFinished : Bool
  legacyHeaders : List LegacyHeader
  tabletMetas : List TabletMetaRec
  storedRowsetMetas : List StoredRowsetMeta
deriving DecidableEq, Repr

/-- `_clean_unfinished_converting_data`: drop the temporary (new-format)
tablet metas and all rowset metas left over from a crashed conversion. -/
def cleanUnfinishedConvertingData (d : DataDirMeta) : DataDirMeta :=
  { d with tabletMetas := [], storedRowsetMetas := [] }

/-- The traversal inside `_convert_old_tablet`: convert each legacy header to
a tablet meta plus pending rowset metas, persisting the pending rowsets and
then the tablet meta; a parse or conversion failure aborts (`none`). -/
def convertOldTabletsGo : List LegacyHeader → DataDirMeta → Option DataDirMeta
  | [], d => some d
  | h :: rest, d =>
    if h.parses && h.convertOk then
      convertOldTabletsGo rest
        { d with
            storedRowsetMetas := d.storedRowsetMetas ++ h.pendingRowsets,
            tabletMetas := d.tabletMetas ++ [h.tabletMeta] }
    else none

/-- `StorageEngine::_convert_old_tablet` over a volume's metadata store. -/
def convert_old_tablet (d : DataDirMeta) : Option DataDirMeta :=
  convertOldTabletsGo d.legacyHeaders d

/-- The tablet-load traversal: build a `Tablet` from every tablet meta whose
load succeeds, registering it in the directory; failures are skipped. -/
def loadTablets (metas : List TabletMetaRec) : List Tablet :=
  metas.filterMap (fun r =>
    if r.loadOk then some ⟨r.tablet_id, r.schema_hash, r.rowsets⟩ else none)

/-- The rowset-meta traversal collecting `dir_rowset_metas`: a malformed
entry is skipped (the callback returns `true`), not fatal. -/
def collectRowsetMetas (stored : List StoredRowsetMeta) : List RowsetMeta :=
  (stored.filter (fun s => s.parses)).map (fun s => s.meta)

/-- Result of `_load_data_dir`: status, the volume's metadata store
afterwards, the tablet directory and transaction reconciler contents, and
whether the clean-unfinished-converting and legacy-conversion steps ran. -/
structure LoadResult where
  status : Int
  disk : DataDirMeta
  dirTablets : List Tablet
  txns : List TxnEntry
  ranClean : Bool
  ranConvert : Bool
deriving DecidableEq, Repr

/-- Steps 2–4 of `_load_data_dir`: collect rowset metas, load tablets, then
run the reconciliation pass. -/
def loadTabletsAndReconcile (d : DataDirMeta) : EngineState :=
  reconcileRowsets
    ⟨loadTablets d.tabletMetas, [], collectRowsetMetas d.storedRowsetMetas⟩
    (collectRowsetMetas d.storedRowsetMetas)

/-- `StorageEngine::_load_data_dir`: if the conversion-finished flag is unset,
clean partially-converted metadata, re-run legacy conversion (abort on
failure) and set the flag; if the flag is set both steps are skipped.  Then
load rowset metas and tablets and reconcile. -/
def load_data_dir (d : DataDirMeta) : LoadResult :=
  if d.convertFinished then
    let st := loadTabletsAndReconcile d
    ⟨OLAP_SUCCESS, d, st.tablets, st.txns, false, false⟩
  else
    let d1 := cleanUnfinishedConvertingData d
    match convert_old_tablet d1 with
    | none => ⟨OLAP_ERR_META_ERROR, d1, [], [], true, true⟩
    | some d2 =>
      let d3 := { d2 with convertFinished := true }
      let st := loadTabletsAndReconcile d3
      ⟨OLAP_SUCCESS, d3, st.tablets, st.txns, true, true⟩

/-! ## Disk-health pass (`_delete_tables_on_unused_root_path`) -/

/-- One entry of `_store_map`: the used flag and the tablets on the volume. -/
structure RootPathStore where
  is_used : Bool
  tablets : List TabletInfo
deriving DecidableEq, Repr

/-- `StorageEngine::_used_disk_not_enough`. -/
def used_disk_not_enough (unused_num total_num min_pct : Nat) : Bool :=
  total_num == 0 || min_pct < unused_num * 100 / total_num

/-- The loop of `_delete_tables_on_unused_root_path`: count every volume into
`total_num`; a used volume is skipped; an unused volume has its tablets
cleared into the drop list.  The `unused_num` accumulator is threaded through
unchanged in both branches — the source loop declares the counter but never
increments it. -/
def deleteTablesScan :
    List RootPathStore → Nat → Nat → List TabletInfo →
      Nat × Nat × List TabletInfo
  | [], unused_num, total_num, dropped => (unused_num, total_num, dropped)
  | s :: rest, unused_num, total_num, dropped =>
    if s.is_used then deleteTablesScan rest unused_num (total_num + 1) dropped
    else deleteTablesScan rest unused_num (total_num + 1) (dropped ++ s.tablets)

/-- Outcome of the disk-health pass: whether the fatal
`LOG(FATAL); exit(0)` branch is reached, the dropped tablets, and
`_is_drop_tables`. -/
structure DiskStatResult where
  fatal : Bool
  dropped : List TabletInfo
  is_drop_tables : Bool
deriving DecidableEq, Repr

/-- `StorageEngine::_delete_tables_on_unused_root_path`. -/
def delete_tables_on_unused_root_path (stores : List RootPathStore)
    (min_pct : Nat) : DiskStatResult :=
  match deleteTablesScan stores 0 0 [] with
  | (unused_num, total_num, dropped) =>
    ⟨used_disk_not_enough unused_num total_num min_pct, dropped,
      !dropped.isEmpty⟩

/-! ## GC sweeps (`start_delete_unused_index`, `start_delete_unused_rowset`) -/

/-- A retired index artifact (`SegmentGroup*`): identity and whether it is
still referenced (`is_in_use()`). -/
structure SegmentGroup where
  sg_id : Nat
  in_use : Bool
deriving DecidableEq, Repr

/-- `StorageEngine::start_delete_unused_index`: walk `_gc_files`; an entry
still in use is kept; otherwise its recorded files are deleted and the entry
is erased.  Returns (registry afterwards, files deleted). -/
def start_delete_unused_index :
    List (SegmentGroup × List String) →
      List (SegmentGroup × List String) × List String
  | [] => ([], [])
  | p :: rest =>
    let r := start_delete_unused_index rest
    if p.1.in_use then (p :: r.1, r.2) else (r.1, p.2 ++ r.2)

/-- A retired rowset in `_unused_rowsets`: id and `in_use()` flag. -/
structure UnusedRowset where
  rowset_id : Nat
  in_use : Bool
deriving DecidableEq, Repr

/-- The loop of `StorageEngine::start_delete_unused_rowset`: walk
`_unused_rowsets`; an entry still in use is kept (`++it`); otherwise its
`remove()` is invoked and `_unused_rowsets.erase(it)` is called with the
returned iterator discarded, after which the loop condition re-tests the
invalidated iterator — undefined behavior in C++ (the index sweep, by
contrast, reassigns `it = _gc_files.erase(it)`).  `some (registry afterwards,
rowset ids removed)` models a sweep that completes; `none` models execution
reaching the undefined iterator use, which happens at the first erase. -/
def start_delete_unused_rowset :
    List (Nat × UnusedRowset) → Option (List (Nat × UnusedRowset) × List Nat)
  | [] => some ([], [])
  | p :: rest =>
    if p.2.in_use then
      match start_delete_unused_rowset rest with
      | some r => some (p :: r.1, r.2)
      | none => none
    else none

/-! ## Compaction candidate selection (`_find_best_tablet_to_compaction`) -/

inductive CompactionType
  | CUMULATIVE_COMPACTION
  | BASE_COMPACTION
deriving DecidableEq, Repr

/-- The tablet fields the selection loop reads: volume hash, usable/loaded
flags, the kind-specific eligibility predicate, the last compaction failure
timestamp (ms), the outcomes of the non-blocking per-kind lock probes, and
the two compaction scores. -/
structure CTablet where
  tablet_id : Int
  path_hash : Int
  is_used : Bool
  is_loaded : Bool
  can_do_compaction : Bool
  last_compaction_failure_time : Int
  try_cumulative_lock_ok : Bool
  try_base_lock_ok : Bool
  cumulative_compaction_score : Nat
  base_compaction_score : Nat
deriving DecidableEq, Repr

/-- The kind-specific score (`get_base_compaction_score` /
`get_cumulative_compaction_score`). -/
def tabletScore (ct : CompactionType) (t : CTablet) : Nat :=
  match ct with
  | CompactionType.BASE_COMPACTION => t.base_compaction_score
  | CompactionType.CUMULATIVE_COMPACTION => t.cumulative_compaction_score

/-- The try-then-release probe of the per-kind compaction lock. -/
def tryLockProbe (ct : CompactionType) (t : CTablet) : Bool :=
  match ct with
  | CompactionType.CUMULATIVE_COMPACTION => t.try_cumulative_lock_ok
  | CompactionType.BASE_COMPACTION => t.try_base_lock_ok

/-- The `continue` filters of the selection loop: volume match, usable,
loaded, kind-specific eligibility, failure backoff
(`now - last_compaction_failure_time <= min_interval_sec * 1000` skips), and
the non-blocking lock probe. -/
def passesFilters (ct : CompactionType) (storeHash now minIntervalSec : Int)
    (t : CTablet) : Bool :=
  (t.path_hash == storeHash) && t.is_used && t.is_loaded &&
    t.can_do_compaction &&
    decide (minIntervalSec * 1000 < now - t.last_compaction_failure_time) &&
    tryLockProbe ct t

/-- The accumulator loop of `_find_best_tablet_to_compaction`:
`highest_score` starts at 0 and a candidate replaces the current best only
when its score is strictly greater. -/
def findBestLoop (ct : CompactionType) (storeHash now minIntervalSec : Int) :
    List CTablet → Nat → Option CTablet → Option CTablet
  | [], _, best => best
  | t :: rest, highest, best =>
    if passesFilters ct storeHash now minIntervalSec t then
      if highest < tabletScore ct t then
        findBestLoop ct storeHash now minIntervalSec rest (tabletScore ct t)
          (some t)
      else findBestLoop ct storeHash now minIntervalSec rest highest best
    else findBestLoop ct storeHash now minIntervalSec rest highest best

/-- `StorageEngine::_find_best_tablet_to_compaction` over the flattened
tablet map of one volume. -/
def find_best_tablet_to_compaction (ct : CompactionType)
    (storeHash now minIntervalSec : Int) (tablets : List CTablet) :
    Option CTablet :=
  findBestLoop ct storeHash now minIntervalSec tablets 0 none

/-- The selection loop restricted to candidates that already passed the
filters (specification-side helper). -/
def selectLoop (ct : CompactionType) :
    List CTablet → Nat → Option CTablet → Option CTablet
  | [], _, b => b
  | t :: rest, h, b =>
    if h < tabletScore ct t then selectLoop ct rest (tabletScore ct t) (some t)
    else selectLoop ct rest h b

/-- Specification-side: the greatest score among a candidate list. -/
def maxScore (ct : CompactionType) : List CTablet → Nat
  | [] => 0
  | t :: rest => max (tabletScore ct t) (maxScore ct rest)

/-! ## Trash sweep (`start_trash_sweep`, `_do_sweep`) -/

/-- One entry of a swept directory: whether its name prefix parses as a
timestamp (`strptime`), and its age in seconds
(`difftime(local_now, mktime(created))`). -/
structure TrashEntry where
  parses : Bool
  age : Nat
deriving DecidableEq, Repr

/-- The loop of `StorageEngine::_do_sweep`: an entry whose timestamp prefix
fails to parse is skipped; an entry of age `>= expire` is removed.  Returns
(removed entries, kept entries). -/
def do_sweep_entries : List TrashEntry → Nat → List TrashEntry × List TrashEntry
  | [], _ => ([], [])
  | e :: rest, expire =>
    let r := do_sweep_entries rest expire
    if e.parses then
      if expire ≤ e.age then (e :: r.1, r.2) else (r.1, e :: r.2)
    else (r.1, e :: r.2)

/-- The trash expiry chosen by `start_trash_sweep`:
`curr_usage > guard_space ? 0 : trash_expire`. -/
def trashSweepExpire (usage guard : ℚ) (trash_expire : Nat) : Nat :=
  if guard < usage then 0 else trash_expire

/-- The trash-directory sweep of one used volume inside `start_trash_sweep`. -/
def sweep_trash_dir (usage guard : ℚ) (trash_expire : Nat)
    (entries : List TrashEntry) : List TrashEntry × List TrashEntry :=
  do_sweep_entries entries (trashSweepExpire usage guard trash_expire)

/-! ## Usage accumulation in `start_trash_sweep` -/

/-- The fields of a `DataDirInfo` the sweep reads (capacity arithmetic is
done in exact rational arithmetic here). -/
structure DataDirInfo where
  is_used : Bool
  capacity : ℚ
  available : ℚ
deriving DecidableEq, Repr

/-- `curr_usage = (capacity - available) / capacity`. -/
def dirUsage (d : DataDirInfo) : ℚ := (d.capacity - d.available) / d.capacity

/-- The `*usage` accumulation of `start_trash_sweep`: skip unused volumes;
for a used volume `*usage = *usage > curr_usage ? *usage : curr_usage`. -/
def trashSweepUsage : List DataDirInfo → ℚ → ℚ
  | [], u => u
  | d :: rest, u =>
    if d.is_used then
      trashSweepUsage rest (if dirUsage d < u then u else dirUsage d)
    else trashSweepUsage rest u

theorem clusterIdScan_err_of_mem_ne (l : List Int) (y cid : Int) (b : Bool)
    (hy : y ∈ l) (hy1 : y ≠ -1) (hycid : y ≠ cid) (hcid : cid ≠ -1) :
    (clusterIdScan l cid b).1 = none := by
  induction l generalizing b with
  | nil => cases hy
  | cons t rest ih =>
    rcases List.mem_cons.mp hy with h | h
    · subst h
      simp only [clusterIdScan, if_neg hy1, if_neg hycid]
      rw [if_neg hcid]
    · by_cases ht1 : t = -1
      · rw [clusterIdScan, if_pos ht1]; exact ih _ h
      · by_cases htc : t = cid
        · rw [clusterIdScan, if_neg ht1, if_pos htc]; exact ih _ h
        · rw [clusterIdScan, if_neg ht1, if_neg htc, if_neg hcid]

theorem clusterIdScan_err_of_two (l : List Int) (x y : Int)
    (hx : x ∈ l) (hy : y ∈ l) (hx1 : x ≠ -1) (hy1 : y ≠ -1) (hxy : x ≠ y) :
    ∀ cid b, (clusterIdScan l cid b).1 = none := by
  induction l with
  | nil => cases hx
  | cons t rest ih =>
    intro cid b
    rcases List.mem_cons.mp hx with hxt | hxr
    · subst hxt
      rcases List.mem_cons.mp hy with hyt | hyr
      · exact absurd hyt.symm hxy
      · by_cases hxc : x = cid
        · rw [clusterIdScan, if_neg hx1, if_pos hxc]
          exact clusterIdScan_err_of_mem_ne rest y cid b hyr hy1
            (hxc ▸ (Ne.symm hxy)) (hxc ▸ hx1)
        · by_cases hc1 : cid = -1
          · rw [clusterIdScan, if_neg hx1, if_neg hxc, if_pos hc1]
            exact clusterIdScan_err_of_mem_ne rest y x b hyr hy1
              (Ne.symm hxy) hx1
          · rw [clusterIdScan, if_neg hx1, if_neg hxc, if_neg hc1]
    · rcases List.mem_cons.mp hy with hyt | hyr
      · subst hyt
        by_cases hyc : y = cid
        · rw [clusterIdScan, if_neg hy1, if_pos hyc]
          exact clusterIdScan_err_of_mem_ne rest x cid b hxr hx1
            (hyc ▸ hxy) (hyc ▸ hy1)
        · by_cases hc1 : cid = -1
          · rw [clusterIdScan, if_neg hy1, if_neg hyc, if_pos hc1]
            exact clusterIdScan_err_of_mem_ne rest x y b hxr hx1 hxy hy1
          · rw [clusterIdScan, if_neg hy1, if_neg hyc, if_neg hc1]
      · by_cases ht1 : t = -1
        · rw [clusterIdScan, if_pos ht1]; exact ih hxr hyr _ _
        · by_cases htc : t = cid
          · rw [clusterIdScan, if_neg ht1, if_pos htc]; exact ih hxr hyr _ _
          · by_cases hc1 : cid = -1
            · rw [clusterIdScan, if_neg ht1, if_neg htc, if_pos hc1]
              exact ih hxr hyr _ _
            · rw [clusterIdScan, if_neg ht1, if_neg htc, if_neg hc1]

/-- C3: two distinct non-(-1) stored cluster ids make the check fail with
`OLAP_ERR_INVALID_CLUSTER_INFO` and leave every volume's stored id untouched;
stored ids `[-1, 5, -1]` (with unset effective id) succeed, resolve the
effective id to `5`, and write `5` back to all volumes. -/
theorem cluster_id_check_correct :
    (∀ (stores : List Int) (eff0 x y : Int), x ∈ stores → y ∈ stores →
      x ≠ -1 → y ≠ -1 → x ≠ y →
      (check_all_root_path_cluster_id stores eff0).status =
          OLAP_ERR_INVALID_CLUSTER_INFO ∧
        (check_all_root_path_cluster_id stores eff0).stores = stores) ∧
    check_all_root_path_cluster_id [-1, 5, -1] (-1) =
      ⟨OLAP_SUCCESS, [5, 5, 5], 5, true⟩ := by
  constructor
  · intro stores eff0 x y hx hy hx1 hy1 hxy
    have herr := clusterIdScan_err_of_two stores x y hx hy hx1 hy1 hxy (-1) true
    unfold check_all_root_path_cluster_id
    rcases hscan : clusterIdScan stores (-1) true with ⟨o, allE⟩
    rw [hscan] at herr
    simp only at herr
    subst herr
    exact ⟨rfl, rfl⟩
  · decide

theorem cluster_id_check_witness :
    (check_all_root_path_cluster_id [5, 7] 0).status =
        OLAP_ERR_INVALID_CLUSTER_INFO ∧
      (check_all_root_path_cluster_id [5, 7] 0).stores = [5, 7] :=
  cluster_id_check_correct.1 [5, 7] 0 5 7 (by decide) (by decide)
    (by decide) (by decide) (by decide)

theorem releaseLocks_self (l : List TabletInfo) : releaseLocks l l = [] := by
  induction l with
  | nil => rfl
  | cons a l ih =>
    show List.foldl (fun h t => h.erase t) ((a :: l).erase a) l = []
    rw [List.erase_cons_head]
    exact ih

/-- C2: a task whose `prepare()` fails gets that status returned, never has
`execute()` or `finish()` invoked, and leaves no tablet header write-lock
held: every lock acquired in the prepare phase is released. -/
theorem execute_task_prepare_failure (dir : List TabletInfo)
    (task : EngineTask) (h : task.prepareStatus ≠ OLAP_SUCCESS) :
    execute_task dir task = ⟨task.prepareStatus, false, false, []⟩ := by
  unfold execute_task
  rw [if_pos h]
  rw [show ([] : List TabletInfo) ++ resolveAndLock dir task.relatedBefore =
      resolveAndLock dir task.relatedBefore from List.nil_append _]
  rw [releaseLocks_self]

theorem execute_task_prepare_failure_witness :
    execute_task [⟨7, 1⟩, ⟨3, 2⟩, ⟨9, 5⟩]
        ⟨[⟨9, 5⟩, ⟨3, 2⟩], [⟨9, 5⟩], -1, 0, 0⟩ =
      ⟨-1, false, false, []⟩ :=
  execute_task_prepare_failure [⟨7, 1⟩, ⟨3, 2⟩, ⟨9, 5⟩]
    ⟨[⟨9, 5⟩, ⟨3, 2⟩], [⟨9, 5⟩], -1, 0, 0⟩ (by decide)

theorem addIncRowset_pred (a b : Int) (r : Nat) (tid sh : Int) (t : Tablet) :
    (((if t.tablet_id == a && t.schema_hash == b then
        { t with rowsets := r :: t.rowsets } else t).tablet_id == tid) &&
      ((if t.tablet_id == a && t.schema_hash == b then
        { t with rowsets := r :: t.rowsets } else t).schema_hash == sh)) =
    (t.tablet_id == tid && t.schema_hash == sh) := by
  by_cases hc : (t.tablet_id == a && t.schema_hash == b) = true
  · rw [if_pos hc]
  · rw [if_neg hc]

theorem addIncRowset_tabletPresent (ts : List Tablet) (a b : Int) (r : Nat)
    (tid sh : Int) :
    tabletPresent (addIncRowset ts a b r) tid sh = tabletPresent ts tid sh := by
  induction ts with
  | nil => rfl
  | cons t ts ih =>
    unfold tabletPresent getTablet addIncRowset
    rw [List.map_cons, List.find?_cons, List.find?_cons]
    rw [addIncRowset_pred a b r tid sh t]
    cases hq : (t.tablet_id == tid && t.schema_hash == sh) with
    | true => rfl
    | false => exact ih

theorem reconcileRowset_tabletPresent (st : EngineState) (m : RowsetMeta)
    (tid sh : Int) :
    tabletPresent (reconcileRowset st m).tablets tid sh =
      tabletPresent st.tablets tid sh := by
  unfold reconcileRowset
  cases hg : getTablet st.tablets m.tablet_id m.tablet_schema_hash with
  | none => rfl
  | some t =>
    cases m.rowset_state with
    | PREPARED => rfl
    | COMMITTED => rfl
    | VISIBLE => exact addIncRowset_tabletPresent _ _ _ _ _ _

theorem reconcileRowsets_tabletPresent (metas : List RowsetMeta)
    (st : EngineState) (tid sh : Int) :
    tabletPresent (reconcileRowsets st metas).tablets tid sh =
      tabletPresent st.tablets tid sh := by
  induction metas generalizing st with
  | nil => rfl
  | cons m rest ih =>
    show tabletPresent (reconcileRowsets (reconcileRowset st m) rest).tablets
        tid sh = _
    rw [ih (reconcileRowset st m), reconcileRowset_tabletPresent]

theorem reconcileRowset_metaStore (st : EngineState) (m : RowsetMeta) :
    (reconcileRowset st m).rowsetMetaStore = st.rowsetMetaStore := by
  unfold reconcileRowset
  cases getTablet st.tablets m.tablet_id m.tablet_schema_hash with
  | none => rfl
  | some t =>
    cases m.rowset_state with
    | PREPARED => rfl
    | COMMITTED => rfl
    | VISIBLE => rfl

theorem reconcileRowsets_metaStore (metas : List RowsetMeta)
    (st : EngineState) :
    (reconcileRowsets st metas).rowsetMetaStore = st.rowsetMetaStore := by
  induction metas generalizing st with
  | nil => rfl
  | cons m rest ih =>
    show (reconcileRowsets (reconcileRowset st m) rest).rowsetMetaStore = _
    rw [ih (reconcileRowset st m), reconcileRowset_metaStore]

theorem mem_commitTxn_of_mem (txns : List TxnEntry) (m : RowsetMeta)
    (e : TxnEntry) (he : e ∈ txns) : e ∈ commitTxn txns m := by
  unfold commitTxn
  by_cases h : (txns.any (fun e => e.partition_id == m.partition_id &&
      e.txn_id == m.txn_id && e.tablet_id == m.tablet_id &&
      e.schema_hash == m.tablet_schema_hash)) = true
  · rw [if_pos h]; exact he
  · rw [if_neg h]; exact List.mem_cons_of_mem _ he

theorem reconcileRowset_txns_mono (st : EngineState) (m : RowsetMeta)
    (e : TxnEntry) (he : e ∈ st.txns) : e ∈ (reconcileRowset st m).txns := by
  unfold reconcileRowset
  cases getTablet st.tablets m.tablet_id m.tablet_schema_hash with
  | none => exact he
  | some t =>
    cases m.rowset_state with
    | PREPARED => exact he
    | COMMITTED => exact mem_commitTxn_of_mem _ _ _ he
    | VISIBLE => exact he

theorem reconcileRowsets_txns_mono (metas : List RowsetMeta)
    (st : EngineState) (e : TxnEntry) (he : e ∈ st.txns) :
    e ∈ (reconcileRowsets st metas).txns := by
  induction metas generalizing st with
  | nil => exact he
  | cons m rest ih =>
    exact ih (reconcileRowset st m) (reconcileRowset_txns_mono st m e he)

theorem rowsetInTablets_addIncRowset_mono (ts : List Tablet) (a b : Int)
    (r : Nat) (tid sh : Int) (rid : Nat)
    (h : rowsetInTablets ts tid sh rid) :
    rowsetInTablets (addIncRowset ts a b r) tid sh rid := by
  obtain ⟨t, ht, h1, h2, h3⟩ := h
  by_cases hc : (t.tablet_id == a && t.schema_hash == b) = true
  · exact ⟨{ t with rowsets := r :: t.rowsets },
      List.mem_map.mpr ⟨t, ht, by simp [hc]⟩, h1, h2,
      List.mem_cons_of_mem _ h3⟩
  · exact ⟨t, List.mem_map.mpr ⟨t, ht, by simp [hc]⟩, h1, h2, h3⟩

theorem rowsetInTablets_reconcileRowset_mono (st : EngineState)
    (m : RowsetMeta) (tid sh : Int) (rid : Nat)
    (h : rowsetInTablets st.tablets tid sh rid) :
    rowsetInTablets (reconcileRowset st m).tablets tid sh rid := by
  unfold reconcileRowset
  cases getTablet st.tablets m.tablet_id m.tablet_schema_hash with
  | none => exact h
  | some t =>
    cases m.rowset_state with
    | PREPARED => exact h
    | COMMITTED => exact h
    | VISIBLE => exact rowsetInTablets_addIncRowset_mono _ _ _ _ _ _ _ h

theorem rowsetInTablets_reconcileRowsets_mono (metas : List RowsetMeta)
    (st : EngineState) (tid sh : Int) (rid : Nat)
    (h : rowsetInTablets st.tablets tid sh rid) :
    rowsetInTablets (reconcileRowsets st metas).tablets tid sh rid := by
  induction metas generalizing st with
  | nil => exact h
  | cons m rest ih =>
    exact ih (reconcileRowset st m)
      (rowsetInTablets_reconcileRowset_mono st m tid sh rid h)

theorem commitTxn_key (txns : List TxnEntry) (m : RowsetMeta) :
    ∃ e ∈ commitTxn txns m,
      e.partition_id = m.partition_id ∧ e.txn_id = m.txn_id := by
  unfold commitTxn
  by_cases h : (txns.any (fun e => e.partition_id == m.partition_id &&
      e.txn_id == m.txn_id && e.tablet_id == m.tablet_id &&
      e.schema_hash == m.tablet_schema_hash)) = true
  · rw [if_pos h]
    obtain ⟨e, he, hp⟩ := List.any_eq_true.mp h
    simp only [Bool.and_eq_true, beq_iff_eq] at hp
    exact ⟨e, he, hp.1.1.1, hp.1.1.2⟩
  · rw [if_neg h]
    exact ⟨_, List.mem_cons_self _ _, rfl, rfl⟩

theorem addIncRowset_attaches (ts : List Tablet) (tid sh : Int) (rid : Nat)
    (h : tabletPresent ts tid sh = true) :
    rowsetInTablets (addIncRowset ts tid sh rid) tid sh rid := by
  unfold tabletPresent at h
  rw [Option.isSome_iff_exists] at h
  obtain ⟨t, ht⟩ := h
  have hmem : t ∈ ts := List.mem_of_find?_eq_some ht
  have hp := List.find?_some ht
  have hid : (t.tablet_id == tid) = true := ((Bool.and_eq_true _ _).mp hp).1
  have hsh : (t.schema_hash == sh) = true := ((Bool.and_eq_true _ _).mp hp).2
  exact ⟨{ t with rowsets := rid :: t.rowsets },
    List.mem_map.mpr ⟨t, hmem, by simp [hp]⟩, beq_iff_eq.mp hid,
    beq_iff_eq.mp hsh, List.mem_cons_self _ _⟩

theorem commitTxn_src (txns : List TxnEntry) (m : RowsetMeta) (e : TxnEntry)
    (he : e ∈ commitTxn txns m) : e ∈ txns ∨ e.rowset_id = m.rowset_id := by
  unfold commitTxn at he
  by_cases h : (txns.any (fun e => e.partition_id == m.partition_id &&
      e.txn_id == m.txn_id && e.tablet_id == m.tablet_id &&
      e.schema_hash == m.tablet_schema_hash)) = true
  · rw [if_pos h] at he; exact Or.inl he
  · rw [if_neg h] at he
    rcases List.mem_cons.mp he with h1 | h1
    · subst h1; exact Or.inr rfl
    · exact Or.inl h1

theorem reconcileRowset_txns_src (st : EngineState) (m : RowsetMeta)
    (e : TxnEntry) (he : e ∈ (reconcileRowset st m).txns) :
    e ∈ st.txns ∨ (m.rowset_state = RowsetState.COMMITTED ∧
      tabletPresent st.tablets m.tablet_id m.tablet_schema_hash = true ∧
      e.rowset_id = m.rowset_id) := by
  unfold reconcileRowset at he
  cases hg : getTablet st.tablets m.tablet_id m.tablet_schema_hash with
  | none => rw [hg] at he; exact Or.inl he
  | some t =>
    rw [hg] at he
    cases hs : m.rowset_state with
    | PREPARED => rw [hs] at he; exact Or.inl he
    | COMMITTED =>
      rw [hs] at he
      rcases commitTxn_src st.txns m e he with h1 | h1
      · exact Or.inl h1
      · refine Or.inr ⟨rfl, ?_, h1⟩
        unfold tabletPresent
        rw [hg]
        rfl
    | VISIBLE => rw [hs] at he; exact Or.inl he

theorem reconcileRowsets_txns_src (metas : List RowsetMeta) :
    ∀ (st : EngineState) (e : TxnEntry),
      e ∈ (reconcileRowsets st metas).txns →
      e ∈ st.txns ∨ ∃ m' ∈ metas,
        m'.rowset_state = RowsetState.COMMITTED ∧
        tabletPresent st.tablets m'.tablet_id m'.tablet_schema_hash = true ∧
        e.rowset_id = m'.rowset_id := by
  induction metas with
  | nil => intro st e he; exact Or.inl he
  | cons m rest ih =>
    intro st e he
    rcases ih (reconcileRowset st m) e he with h | ⟨m', hm', h1, h2, h3⟩
    · rcases reconcileRowset_txns_src st m e h with h' | ⟨hs, hp, hr⟩
      · exact Or.inl h'
      · exact Or.inr ⟨m, List.mem_cons_self _ _, hs, hp, hr⟩
    · rw [reconcileRowset_tabletPresent] at h2
      exact Or.inr ⟨m', List.mem_cons_of_mem _ hm', h1, h2, h3⟩

theorem addIncRowset_src (ts : List Tablet) (a b : Int) (r : Nat) (t : Tablet)
    (ht : t ∈ addIncRowset ts a b r) (rid : Nat) (hr : rid ∈ t.rowsets) :
    rid = r ∨ ∃ t0 ∈ ts, rid ∈ t0.rowsets := by
  obtain ⟨t0, ht0, hft⟩ := List.mem_map.mp ht
  by_cases hc : (t0.tablet_id == a && t0.schema_hash == b) = true
  · have hteq : t = { t0 with rowsets := r :: t0.rowsets } := by
      rw [← hft]; simp [hc]
    rw [hteq] at hr
    rcases List.mem_cons.mp hr with h1 | h1
    · exact Or.inl h1
    · exact Or.inr ⟨t0, ht0, h1⟩
  · have hteq : t = t0 := by rw [← hft]; simp [hc]
    exact Or.inr ⟨t0, ht0, hteq ▸ hr⟩

theorem reconcileRowset_rowsets_src (st : EngineState) (m : RowsetMeta)
    (t : Tablet) (ht : t ∈ (reconcileRowset st m).tablets) (rid : Nat)
    (hr : rid ∈ t.rowsets) :
    (∃ t0 ∈ st.tablets, rid ∈ t0.rowsets) ∨
      (m.rowset_state = RowsetState.VISIBLE ∧
        tabletPresent st.tablets m.tablet_id m.tablet_schema_hash = true ∧
        rid = m.rowset_id) := by
  unfold reconcileRowset at ht
  cases hg : getTablet st.tablets m.tablet_id m.tablet_schema_hash with
  | none => rw [hg] at ht; exact Or.inl ⟨t, ht, hr⟩
  | some t1 =>
    rw [hg] at ht
    cases hs : m.rowset_state with
    | PREPARED => rw [hs] at ht; exact Or.inl ⟨t, ht, hr⟩
    | COMMITTED => rw [hs] at ht; exact Or.inl ⟨t, ht, hr⟩
    | VISIBLE =>
      rw [hs] at ht
      rcases addIncRowset_src st.tablets m.tablet_id m.tablet_schema_hash
          m.rowset_id t ht rid hr with h1 | h1
      · refine Or.inr ⟨rfl, ?_, h1⟩
        unfold tabletPresent
        rw [hg]
        rfl
      · exact Or.inl h1

theorem reconcileRowsets_rowsets_src (metas : List RowsetMeta) :
    ∀ (st : EngineState) (t : Tablet) (rid : Nat),
      t ∈ (reconcileRowsets st metas).tablets → rid ∈ t.rowsets →
      (∃ t0 ∈ st.tablets, rid ∈ t0.rowsets) ∨
        ∃ m' ∈ metas, m'.rowset_state = RowsetState.VISIBLE ∧
          tabletPresent st.tablets m'.tablet_id m'.tablet_schema_hash = true ∧
          rid = m'.rowset_id := by
  induction metas with
  | nil => intro st t rid ht hr; exact Or.inl ⟨t, ht, hr⟩
  | cons m rest ih =>
    intro st t rid ht hr
    rcases ih (reconcileRowset st m) t rid ht hr with h | ⟨m', hm', h1, h2, h3⟩
    · obtain ⟨t0, ht0, hr0⟩ := h
      rcases reconcileRowset_rowsets_src st m t0 ht0 rid hr0 with h' | ⟨hs, hp, he⟩
      · exact Or.inl h'
      · exact Or.inr ⟨m, List.mem_cons_self _ _, hs, hp, he⟩
    · rw [reconcileRowset_tabletPresent] at h2
      exact Or.inr ⟨m', List.mem_cons_of_mem _ hm', h1, h2, h3⟩

theorem reconcileRowsets_append_cons (st0 : EngineState)
    (l1 l2 : List RowsetMeta) (m : RowsetMeta) :
    reconcileRowsets st0 (l1 ++ m :: l2) =
      reconcileRowsets (reconcileRowset (reconcileRowsets st0 l1) m) l2 := by
  unfold reconcileRowsets
  rw [List.foldl_append, List.foldl_cons]

/-- C1: after the volume-load reconciliation pass, a collected rowset meta
whose owning tablet is in the directory is registered in the transaction
reconciler under `(partition_id, txn_id)` when `COMMITTED`, and attached to
its tablet's rowset set when `VISIBLE`; a meta in any other state ends up in
neither structure; a meta whose tablet is absent is skipped — it stays in the
rowset-meta store and enters neither structure.  (Hypotheses: the reconciler
starts empty, the collected rowset ids are fresh and pairwise distinct —
rowset ids are globally unique.) -/
theorem load_reconciliation_correct (st0 : EngineState)
    (metas : List RowsetMeta) (m : RowsetMeta) (hm : m ∈ metas)
    (h1 : st0.txns = [])
    (h2 : ∀ m' ∈ metas, ∀ t ∈ st0.tablets, m'.rowset_id ∉ t.rowsets)
    (h3 : metas.Pairwise (fun a b => a.rowset_id ≠ b.rowset_id)) :
    (tabletPresent st0.tablets m.tablet_id m.tablet_schema_hash = true →
      (m.rowset_state = RowsetState.COMMITTED →
        ∃ e ∈ (reconcileRowsets st0 metas).txns,
          e.partition_id = m.partition_id ∧ e.txn_id = m.txn_id) ∧
      (m.rowset_state = RowsetState.VISIBLE →
        rowsetInTablets (reconcileRowsets st0 metas).tablets m.tablet_id
          m.tablet_schema_hash m.rowset_id)) ∧
    (m.rowset_state = RowsetState.PREPARED →
      (∀ e ∈ (reconcileRowsets st0 metas).txns,
        e.rowset_id ≠ m.rowset_id) ∧
      (∀ t ∈ (reconcileRowsets st0 metas).tablets,
        m.rowset_id ∉ t.rowsets)) ∧
    (tabletPresent st0.tablets m.tablet_id m.tablet_schema_hash = false →
      (reconcileRowsets st0 metas).rowsetMetaStore = st0.rowsetMetaStore ∧
      (∀ e ∈ (reconcileRowsets st0 metas).txns,
        e.rowset_id ≠ m.rowset_id) ∧
      (∀ t ∈ (reconcileRowsets st0 metas).tablets,
        m.rowset_id ∉ t.rowsets)) := by
  have hsym : Symmetric (fun a b : RowsetMeta => a.rowset_id ≠ b.rowset_id) :=
    fun x y h => Ne.symm h
  have hdist : ∀ m' ∈ metas, m' ≠ m → m'.rowset_id ≠ m.rowset_id :=
    fun m' hm' hne => (List.Pairwise.forall hsym h3) hm' hm hne
  refine ⟨?_, ?_, ?_⟩
  · intro hpres
    obtain ⟨l1, l2, rfl⟩ := List.append_of_mem hm
    have hpresA : tabletPresent (reconcileRowsets st0 l1).tablets
        m.tablet_id m.tablet_schema_hash = true := by
      rw [reconcileRowsets_tabletPresent]; exact hpres
    obtain ⟨t, hg⟩ : ∃ t, getTablet (reconcileRowsets st0 l1).tablets
        m.tablet_id m.tablet_schema_hash = some t :=
      Option.isSome_iff_exists.mp hpresA
    constructor
    · intro hcm
      rw [reconcileRowsets_append_cons]
      have hstep : reconcileRowset (reconcileRowsets st0 l1) m =
          { reconcileRowsets st0 l1 with
              txns := commitTxn (reconcileRowsets st0 l1).txns m } := by
        unfold reconcileRowset
        rw [hg, hcm]
      rw [hstep]
      obtain ⟨e, he, hep, het⟩ := commitTxn_key (reconcileRowsets st0 l1).txns m
      exact ⟨e, reconcileRowsets_txns_mono l2 _ e he, hep, het⟩
    · intro hv
      rw [reconcileRowsets_append_cons]
      have hstep : reconcileRowset (reconcileRowsets st0 l1) m =
          { reconcileRowsets st0 l1 with
              tablets := addIncRowset (reconcileRowsets st0 l1).tablets
                m.tablet_id m.tablet_schema_hash m.rowset_id } := by
        unfold reconcileRowset
        rw [hg, hv]
      rw [hstep]
      exact rowsetInTablets_reconcileRowsets_mono l2 _ _ _ _
        (addIncRowset_attaches (reconcileRowsets st0 l1).tablets
          m.tablet_id m.tablet_schema_hash m.rowset_id hpresA)
  · intro hprep
    constructor
    · intro e he heq
      rcases reconcileRowsets_txns_src metas st0 e he with
        hin | ⟨m', hm', hcm', hp', hid'⟩
      · rw [h1] at hin; cases hin
      · have hmm : m' ≠ m := by
          intro hmeq
          rw [hmeq, hprep] at hcm'
          exact RowsetState.noConfusion hcm'
        exact hdist m' hm' hmm (hid'.symm.trans heq)
    · intro t ht hmem
      rcases reconcileRowsets_rowsets_src metas st0 t m.rowset_id ht hmem with
        ⟨t0, ht0, hr0⟩ | ⟨m', hm', hv', hp', hid'⟩
      · exact h2 m hm t0 ht0 hr0
      · have hmm : m' ≠ m := by
          intro hmeq
          rw [hmeq, hprep] at hv'
          exact RowsetState.noConfusion hv'
        exact hdist m' hm' hmm hid'.symm
  · intro habs
    refine ⟨reconcileRowsets_metaStore metas st0, ?_, ?_⟩
    · intro e he heq
      rcases reconcileRowsets_txns_src metas st0 e he with
        hin | ⟨m', hm', hcm', hp', hid'⟩
      · rw [h1] at hin; cases hin
      · by_cases hmeq : m' = m
        · rw [hmeq] at hp'
          rw [hp'] at habs
          exact Bool.noConfusion habs
        · exact hdist m' hm' hmeq (hid'.symm.trans heq)
    · intro t ht hmem
      rcases reconcileRowsets_rowsets_src metas st0 t m.rowset_id ht hmem with
        ⟨t0, ht0, hr0⟩ | ⟨m', hm', hv', hp', hid'⟩
      · exact h2 m hm t0 ht0 hr0
      · by_cases hmeq : m' = m
        · rw [hmeq] at hp'
          rw [hp'] at habs
          exact Bool.noConfusion habs
        · exact hdist m' hm' hmeq hid'.symm

theorem load_reconciliation_correct_witness :
    tabletPresent [⟨10, 1, []⟩] 10 1 = true ∧
      ∃ e ∈ (reconcileRowsets
          ⟨[⟨10, 1, []⟩], [],
            [⟨100, 10, 1, 7, 42, RowsetState.COMMITTED⟩]⟩
          [⟨100, 10, 1, 7, 42, RowsetState.COMMITTED⟩]).txns,
        e.partition_id = 7 ∧ e.txn_id = 42 :=
  ⟨by decide,
    ((load_reconciliation_correct
        ⟨[⟨10, 1, []⟩], [], [⟨100, 10, 1, 7, 42, RowsetState.COMMITTED⟩]⟩
        [⟨100, 10, 1, 7, 42, RowsetState.COMMITTED⟩]
        ⟨100, 10, 1, 7, 42, RowsetState.COMMITTED⟩
        (List.mem_singleton.mpr rfl) rfl (by decide)
        (List.pairwise_singleton _ _)).1 (by decide)).1 rfl⟩

/-- C9: when the persisted conversion-finished flag is set, `_load_data_dir`
invokes neither the clean-unfinished-converting step nor the legacy
conversion, leaves the on-disk metadata unchanged, and is deterministic:
loading the resulting on-disk state again re-runs no conversion and yields an
identical tablet directory. -/
theorem load_idempotent_when_converted (d : DataDirMeta)
    (h : d.convertFinished = true) :
    (load_data_dir d).ranClean = false ∧
    (load_data_dir d).ranConvert = false ∧
    (load_data_dir d).disk = d ∧
    load_data_dir ((load_data_dir d).disk) = load_data_dir d ∧
    (load_data_dir ((load_data_dir d).disk)).dirTablets =
      (load_data_dir d).dirTablets := by
  have hd : load_data_dir d =
      ⟨OLAP_SUCCESS, d, (loadTabletsAndReconcile d).tablets,
        (loadTabletsAndReconcile d).txns, false, false⟩ := by
    unfold load_data_dir
    rw [if_pos h]
  refine ⟨?_, ?_, ?_, ?_, ?_⟩
  · rw [hd]
  · rw [hd]
  · rw [hd]
  · rw [hd]; exact hd
  · rw [hd]; exact congrArg LoadResult.dirTablets hd

theorem load_idempotent_when_converted_witness :
    (load_data_dir ⟨true, [], [⟨5, 3, [9], true⟩], []⟩).ranClean = false ∧
    (load_data_dir ⟨true, [], [⟨5, 3, [9], true⟩], []⟩).ranConvert = false ∧
    (load_data_dir ⟨true, [], [⟨5, 3, [9], true⟩], []⟩).disk =
      ⟨true, [], [⟨5, 3, [9], true⟩], []⟩ ∧
    load_data_dir ((load_data_dir ⟨true, [], [⟨5, 3, [9], true⟩], []⟩).disk) =
      load_data_dir ⟨true, [], [⟨5, 3, [9], true⟩], []⟩ ∧
    (load_data_dir
        ((load_data_dir ⟨true, [], [⟨5, 3, [9], true⟩], []⟩).disk)).dirTablets =
      (load_data_dir ⟨true, [], [⟨5, 3, [9], true⟩], []⟩).dirTablets :=
  load_idempotent_when_converted ⟨true, [], [⟨5, 3, [9], true⟩], []⟩ rfl

/-- C4: with 2 of 3 volumes unusable and an error-disk threshold of 50%, the
fraction of unusable volumes exceeds the threshold, yet the disk-health pass
does not reach the fatal process-termination branch: the loop never
increments `unused_root_path_num`, so `_used_disk_not_enough` is always
called with 0 — even though the check itself would fire on the true count. -/
theorem disk_threshold_never_counted :
    (delete_tables_on_unused_root_path
        [⟨false, []⟩, ⟨false, []⟩, ⟨true, []⟩] 50).fatal = false ∧
    50 < 2 * 100 / 3 ∧
    used_disk_not_enough 2 3 50 = true ∧
    (delete_tables_on_unused_root_path ([] : List RootPathStore) 50).fatal =
      true := by decide

theorem start_delete_unused_index_fst
    (reg : List (SegmentGroup × List String)) :
    (start_delete_unused_index reg).1 = reg.filter (fun p => p.1.in_use) := by
  induction reg with
  | nil => rfl
  | cons p rest ih =>
    by_cases h : p.1.in_use = true
    · simp [start_delete_unused_index, h, ih, List.filter_cons]
    · rw [Bool.not_eq_true] at h
      simp [start_delete_unused_index, h, ih, List.filter_cons]

theorem start_delete_unused_index_snd
    (reg : List (SegmentGroup × List String)) :
    (start_delete_unused_index reg).2 =
      (reg.filter (fun p => !p.1.in_use)).foldr
        (fun p acc => p.2 ++ acc) [] := by
  induction reg with
  | nil => rfl
  | cons p rest ih =>
    by_cases h : p.1.in_use = true
    · simp [start_delete_unused_index, h, ih, List.filter_cons]
    · rw [Bool.not_eq_true] at h
      simp [start_delete_unused_index, h, ih, List.filter_cons]

/-- C5: the rowset half of the sweep contract cannot hold of the code.  On a
registry holding a not-in-use rowset, `start_delete_unused_rowset` invokes
`remove()` and `_unused_rowsets.erase(it)` on it, discards the iterator
`erase` returns, and then re-tests the invalidated iterator: execution
reaches undefined behavior (`none`) instead of completing the removal pass —
so the sweep does not (well-definedly) remove every not-in-use rowset and
keep the in-use ones.  A registry whose rowsets are all in use is swept to
completion with every entry kept and no `remove()` invoked.  The sibling
index sweep, which correctly reassigns `it = _gc_files.erase(it)`, keeps the
in-use artifact and deletes exactly the not-in-use artifact's recorded
files, as the claim describes. -/
theorem gc_rowset_sweep_reuses_invalid_iterator :
    start_delete_unused_rowset [(5, ⟨5, true⟩), (6, ⟨6, false⟩)] = none ∧
    start_delete_unused_rowset [(5, ⟨5, true⟩), (7, ⟨7, true⟩)] =
      some ([(5, ⟨5, true⟩), (7, ⟨7, true⟩)], []) ∧
    start_delete_unused_index [(⟨1, true⟩, ["a"]), (⟨2, false⟩, ["b"])] =
      ([(⟨1, true⟩, ["a"])], ["b"]) := by decide

theorem findBestLoop_src (ct : CompactionType) (sh now mi : Int) :
    ∀ (l : List CTablet) (h : Nat) (b : Option CTablet) (t : CTablet),
      findBestLoop ct sh now mi l h b = some t →
      b = some t ∨ (t ∈ l ∧ passesFilters ct sh now mi t = true) := by
  intro l
  induction l with
  | nil => intro h b t hr; exact Or.inl hr
  | cons t1 rest ih =>
    intro h b t hr
    simp only [findBestLoop] at hr
    by_cases hp : passesFilters ct sh now mi t1 = true
    · rw [if_pos hp] at hr
      by_cases hs : h < tabletScore ct t1
      · rw [if_pos hs] at hr
        rcases ih _ _ _ hr with hb | ⟨hm, hp'⟩
        · have ht1 : t1 = t := Option.some.inj hb
          exact Or.inr ⟨ht1 ▸ List.mem_cons_self _ _, ht1 ▸ hp⟩
        · exact Or.inr ⟨List.mem_cons_of_mem _ hm, hp'⟩
      · rw [if_neg hs] at hr
        rcases ih _ _ _ hr with hb | ⟨hm, hp'⟩
        · exact Or.inl hb
        · exact Or.inr ⟨List.mem_cons_of_mem _ hm, hp'⟩
    · rw [if_neg hp] at hr
      rcases ih _ _ _ hr with hb | ⟨hm, hp'⟩
      · exact Or.inl hb
      · exact Or.inr ⟨List.mem_cons_of_mem _ hm, hp'⟩

/-- C6: a tablet whose last compaction failure is within the configured
minimum failure backoff (`now - last_compaction_failure_time <=
min_compaction_failure_interval_sec * 1000`) is never returned by best-tablet
selection, for either compaction kind. -/
theorem compaction_backoff_respected (ct : CompactionType)
    (storeHash now minIntervalSec : Int) (tablets : List CTablet)
    (t : CTablet)
    (hb : now - t.last_compaction_failure_time ≤ minIntervalSec * 1000) :
    find_best_tablet_to_compaction ct storeHash now minIntervalSec tablets ≠
      some t := by
  intro hr
  rcases findBestLoop_src ct storeHash now minIntervalSec tablets 0 none t hr
    with hb' | ⟨_, hp⟩
  · exact Option.noConfusion hb'
  · unfold passesFilters at hp
    simp only [Bool.and_eq_true, decide_eq_true_eq] at hp
    have hlt := hp.1.2
    omega

theorem compaction_backoff_respected_witness :
    find_best_tablet_to_compaction CompactionType.CUMULATIVE_COMPACTION 0
        5000 10 [⟨1, 0, true, true, true, 5000, true, true, 7, 7⟩] ≠
      some ⟨1, 0, true, true, true, 5000, true, true, 7, 7⟩ :=
  compaction_backoff_respected CompactionType.CUMULATIVE_COMPACTION 0 5000 10
    [⟨1, 0, true, true, true, 5000, true, true, 7, 7⟩]
    ⟨1, 0, true, true, true, 5000, true, true, 7, 7⟩ (by decide)

theorem findBestLoop_filter (ct : CompactionType) (sh now mi : Int) :
    ∀ (l : List CTablet) (h : Nat) (b : Option CTablet),
      findBestLoop ct sh now mi l h b =
        selectLoop ct (l.filter (passesFilters ct sh now mi)) h b := by
  intro l
  induction l with
  | nil => intro h b; rfl
  | cons t rest ih =>
    intro h b
    by_cases hp : passesFilters ct sh now mi t = true
    · rw [List.filter_cons_of_pos hp]
      simp only [findBestLoop, selectLoop, if_pos hp]
      by_cases hs : h < tabletScore ct t
      · rw [if_pos hs, if_pos hs, ih]
      · rw [if_neg hs, if_neg hs, ih]
    · rw [List.filter_cons_of_neg hp]
      simp only [findBestLoop, if_neg hp]
      exact ih h b

theorem selectLoop_eq (ct : CompactionType) :
    ∀ (l : List CTablet) (h : Nat) (b : Option CTablet),
      selectLoop ct l h b =
        if h < maxScore ct l then
          l.find? (fun c => tabletScore ct c == maxScore ct l)
        else b := by
  intro l
  induction l with
  | nil =>
    intro h b
    simp [maxScore, selectLoop]
  | cons t rest ih =>
    intro h b
    simp only [selectLoop, maxScore]
    by_cases hs : h < tabletScore ct t
    · rw [if_pos hs, ih]
      by_cases hm : tabletScore ct t < maxScore ct rest
      · have hmax : max (tabletScore ct t) (maxScore ct rest) =
            maxScore ct rest := Nat.max_eq_right (le_of_lt hm)
        rw [if_pos hm, hmax, if_pos (lt_trans hs hm),
          List.find?_cons_of_neg]
        simp only [beq_iff_eq]
        exact Nat.ne_of_lt hm
      · have hmr : maxScore ct rest ≤ tabletScore ct t := Nat.le_of_not_lt hm
        have hmax : max (tabletScore ct t) (maxScore ct rest) =
            tabletScore ct t := Nat.max_eq_left hmr
        rw [if_neg hm, hmax, if_pos hs, List.find?_cons_of_pos]
        simp
    · rw [if_neg hs, ih]
      have hsh : tabletScore ct t ≤ h := Nat.le_of_not_lt hs
      by_cases hm : h < maxScore ct rest
      · have h1 : tabletScore ct t < maxScore ct rest := lt_of_le_of_lt hsh hm
        have hmax : max (tabletScore ct t) (maxScore ct rest) =
            maxScore ct rest := Nat.max_eq_right (le_of_lt h1)
        rw [if_pos hm, hmax, if_pos hm, List.find?_cons_of_neg]
        simp only [beq_iff_eq]
        exact Nat.ne_of_lt h1
      · have hmx : ¬ h < max (tabletScore ct t) (maxScore ct rest) := by
          rw [Nat.not_lt]
          exact Nat.max_le.mpr ⟨hsh, Nat.le_of_not_lt hm⟩
        rw [if_neg hm, if_neg hmx]

/-- C7 (amended): best-tablet selection returns the first-seen non-excluded
candidate attaining the greatest kind-specific score, provided that greatest
score is positive; when every candidate scores zero (in particular when there
are no candidates) no tablet is returned — `highest_score` starts at 0 and a
candidate must score strictly higher to be kept. -/
theorem find_best_first_max_positive (ct : CompactionType)
    (storeHash now minIntervalSec : Int) (tablets : List CTablet) :
    find_best_tablet_to_compaction ct storeHash now minIntervalSec tablets =
      if maxScore ct
          (tablets.filter (passesFilters ct storeHash now minIntervalSec)) =
          0 then
        none
      else
        (tablets.filter (passesFilters ct storeHash now minIntervalSec)).find?
          (fun c => tabletScore ct c ==
            maxScore ct
              (tablets.filter
                (passesFilters ct storeHash now minIntervalSec))) := by
  unfold find_best_tablet_to_compaction
  rw [findBestLoop_filter, selectLoop_eq]
  by_cases h : maxScore ct
      (tablets.filter (passesFilters ct storeHash now minIntervalSec)) = 0
  · rw [if_pos h, h, if_neg (lt_irrefl 0)]
  · rw [if_neg h, if_pos (Nat.pos_of_ne_zero h)]

/-- C7 counterexample: a volume with exactly one non-excluded candidate whose
score is 0 — the candidate trivially has the strictly greatest score among
the candidates, yet selection returns no tablet. -/
theorem find_best_zero_score_counterexample :
    ([(⟨1, 0, true, true, true, 0, true, true, 0, 0⟩ : CTablet)].filter
        (passesFilters CompactionType.CUMULATIVE_COMPACTION 0 1000000 0) =
      [⟨1, 0, true, true, true, 0, true, true, 0, 0⟩]) ∧
    find_best_tablet_to_compaction CompactionType.CUMULATIVE_COMPACTION 0
        1000000 0 [⟨1, 0, true, true, true, 0, true, true, 0, 0⟩] =
      none := by decide

theorem do_sweep_entries_fst (entries : List TrashEntry) (expire : Nat) :
    (do_sweep_entries entries expire).1 =
      entries.filter (fun e => e.parses && decide (expire ≤ e.age)) := by
  induction entries with
  | nil => rfl
  | cons e rest ih =>
    by_cases hp : e.parses = true
    · by_cases ha : expire ≤ e.age
      · simp [do_sweep_entries, hp, ha, ih, List.filter_cons]
      · simp [do_sweep_entries, hp, ha, ih, List.filter_cons]
    · rw [Bool.not_eq_true] at hp
      simp [do_sweep_entries, hp, ih, List.filter_cons]

/-- C8 (amended): when a used volume's usage fraction exceeds the guard
fraction, its trash directory is swept with expiry threshold 0 and every
parseable entry — whatever its age — is removed; when usage is at or below
the guard, exactly the entries whose age is at least (not strictly greater
than) the fixed trash-expiry threshold are removed: `_do_sweep` removes on
`difftime >= expire`. -/
theorem trash_sweep_guard (usage guard : ℚ) (expire : Nat)
    (entries : List TrashEntry) :
    (guard < usage →
      trashSweepExpire usage guard expire = 0 ∧
      (sweep_trash_dir usage guard expire entries).1 =
        entries.filter (fun e => e.parses)) ∧
    (usage ≤ guard →
      (sweep_trash_dir usage guard expire entries).1 =
        entries.filter (fun e => e.parses && decide (expire ≤ e.age))) := by
  constructor
  · intro h
    have he : trashSweepExpire usage guard expire = 0 := by
      unfold trashSweepExpire
      rw [if_pos h]
    refine ⟨he, ?_⟩
    unfold sweep_trash_dir
    rw [he, do_sweep_entries_fst]
    apply List.filter_congr
    intro e _
    simp
  · intro h
    have he : trashSweepExpire usage guard expire = expire := by
      unfold trashSweepExpire
      rw [if_neg (not_lt.mpr h)]
    unfold sweep_trash_dir
    rw [he, do_sweep_entries_fst]

theorem trash_sweep_guard_witness :
    trashSweepExpire 1 (1/2) 10 = 0 ∧
    (sweep_trash_dir 1 (1/2) 10 [⟨true, 3⟩]).1 =
      [(⟨true, 3⟩ : TrashEntry)].filter (fun e => e.parses) ∧
    (sweep_trash_dir (1/4) (1/2) 10 [⟨true, 3⟩]).1 =
      [(⟨true, 3⟩ : TrashEntry)].filter
        (fun e => e.parses && decide (10 ≤ e.age)) :=
  ⟨((trash_sweep_guard 1 (1/2) 10 [⟨true, 3⟩]).1 (by norm_num)).1,
   ((trash_sweep_guard 1 (1/2) 10 [⟨true, 3⟩]).1 (by norm_num)).2,
   (trash_sweep_guard (1/4) (1/2) 10 [⟨true, 3⟩]).2 (by norm_num)⟩

/-- C8 counterexample: with usage at or below the guard fraction, an entry
whose age exactly equals the trash-expiry threshold is removed by the sweep,
although it is not older than the threshold — the removal condition is
`difftime >= expire`, not `>`. -/
theorem trash_sweep_boundary_counterexample :
    (sweep_trash_dir (1/2) (9/10) 259200 [⟨true, 259200⟩]).1 =
      [⟨true, 259200⟩] ∧
    ¬ (259200 : Nat) < 259200 := by
  constructor
  · unfold sweep_trash_dir trashSweepExpire
    rw [if_neg (by norm_num)]
    decide
  · decide

theorem tern_eq_max (u x : ℚ) : (if x < u then u else x) = max u x := by
  rcases le_or_lt u x with h | h
  · rw [if_neg (not_lt.mpr h), max_eq_right h]
  · rw [if_pos h, max_eq_left (le_of_lt h)]

theorem trashSweepUsage_init_le (dirs : List DataDirInfo) :
    ∀ u : ℚ, u ≤ trashSweepUsage dirs u := by
  induction dirs with
  | nil => intro u; exact le_refl u
  | cons d rest ih =>
    intro u
    by_cases h : d.is_used = true
    · simp only [trashSweepUsage, if_pos h]
      calc u ≤ max u (dirUsage d) := le_max_left _ _
        _ = (if dirUsage d < u then u else dirUsage d) :=
            (tern_eq_max _ _).symm
        _ ≤ trashSweepUsage rest _ := ih _
    · simp only [trashSweepUsage, if_neg h]
      exact ih u

/-- C10: `start_trash_sweep` accumulates into its usage output the maximum of
the incoming value and the usage fraction `(capacity - available)/capacity`
of every used volume, skipping unused volumes; hence the written value is an
upper bound on every used volume's usage, and equals the maximum over them
whenever the incoming value does not exceed it. -/
theorem trash_sweep_usage_max (dirs : List DataDirInfo) (u0 : ℚ) :
    trashSweepUsage dirs u0 =
      (dirs.filter (fun d => d.is_used)).foldl
        (fun a d => max a (dirUsage d)) u0 ∧
    ∀ d ∈ dirs, d.is_used = true → dirUsage d ≤ trashSweepUsage dirs u0 := by
  constructor
  · induction dirs generalizing u0 with
    | nil => rfl
    | cons d rest ih =>
      by_cases h : d.is_used = true
      · rw [List.filter_cons_of_pos h, List.foldl_cons]
        simp only [trashSweepUsage, if_pos h]
        rw [tern_eq_max]
        exact ih (max u0 (dirUsage d))
      · rw [List.filter_cons_of_neg h]
        simp only [trashSweepUsage, if_neg h]
        exact ih u0
  · induction dirs generalizing u0 with
    | nil => intro d hd; cases hd
    | cons d1 rest ih =>
      intro d hd hu
      rcases List.mem_cons.mp hd with h | h
      · subst h
        simp only [trashSweepUsage, if_pos hu]
        calc dirUsage d ≤ max u0 (dirUsage d) := le_max_right _ _
          _ = (if dirUsage d < u0 then u0 else dirUsage d) :=
              (tern_eq_max _ _).symm
          _ ≤ trashSweepUsage rest _ := trashSweepUsage_init_le rest _
      · by_cases h1 : d1.is_used = true
        · simp only [trashSweepUsage, if_pos h1]
          exact ih _ d h hu
        · simp only [trashSweepUsage, if_neg h1]
          exact ih _ d h hu

theorem trash_sweep_usage_max_witness :
    dirUsage ⟨true, 100, 40⟩ ≤
      trashSweepUsage [⟨true, 100, 40⟩, ⟨false, 100, 0⟩] 0 :=
  (trash_sweep_usage_max [⟨true, 100, 40⟩, ⟨false, 100, 0⟩] 0).2
    ⟨true, 100, 40⟩ (List.mem_cons_self _ _) rfl
